import Mathlib

/-!
Verification of the crypto-visualizer trace engine.

This file gives a shallow embedding, in Lean 4, of the pure JavaScript core of
the crypto-visualizer repository (`assets/js/algorithms/utils.js`, `caesar.js`,
`aes.js`, `aes-operations.js`, `aes-key-expansion.js`, `rsa.js`,
`stepper.js`, `animator.js`) and proves the testable properties stated in the
specification against it.

Modelling conventions:
* JavaScript numbers holding integers are embedded as `Nat` (or `Int` where the
  source can produce negative values); the teaching-scale inputs stay far below
  2^53, so no overflow model is needed.
* `parseInt(s, 16)` returning `NaN` is embedded as `Option Nat` with `none` for
  `NaN`.
* Functions that can `throw` are embedded as `Except JSError _`; functions with
  no throw statement are total.
* JavaScript `%` on integers is truncated remainder (`Int.tmod`); the source's
  `((x % m) + m) % m` idiom is embedded by `jsMod`.
* Out-of-range array reads (`a[i]` yielding `undefined`) are embedded with
  `List.getD`-style defaults; every theorem below stays on inputs where no such
  read occurs (or where only the shape, not the defaulted values, is stated).
-/

namespace CryptoVisualizer

/-- A thrown JavaScript error. The source only ever throws `RangeError`. -/
inductive JSError where
  | rangeError (msg : String)
deriving DecidableEq

/-- The JavaScript idiom `((x % m) + m) % m` (with `%` the truncated remainder)
used by `caesar.js` (`shiftChar`, `buildCaesarSteps`) and `utils.js`
(`modInverse`) to normalise a possibly negative value into `[0, m)`. -/
def jsMod (x m : Int) : Int :=
  (x.tmod m + m).tmod m

/-- `jsMod` agrees with Euclidean remainder for a positive modulus. -/
theorem jsMod_eq_emod (x m : Int) (hm : 0 < m) : jsMod x m = x % m := by
  unfold jsMod
  have hdvd : m ∣ x - x.tmod m := by
    refine ⟨x.tdiv m, ?_⟩
    have h := Int.tmod_add_tdiv x m
    linarith
  have hlow : -m < x.tmod m := by
    rcases le_or_lt 0 x with hx | hx
    · have := Int.tmod_nonneg m hx
      linarith
    · have hneg : x.tmod m = -((-x).tmod m) := by
        have d1 := Int.tmod_def x m
        have d2 := Int.tmod_def (-x) m
        rw [Int.neg_tdiv] at d2
        calc x.tmod m = x - m * x.tdiv m := d1
          _ = -(-x - m * -x.tdiv m) := by ring
          _ = -((-x).tmod m) := by rw [← d2]
      have hup : (-x).tmod m < m := Int.tmod_lt_of_pos (-x) hm
      omega
  have hnn : 0 ≤ x.tmod m + m := by omega
  rw [Int.tmod_eq_emod hnn hm.le]
  have h1 : (x.tmod m + m) % m = x.tmod m % m := by
    have h0 := Int.add_mul_emod_self_left (a := x.tmod m) (b := m) (c := 1)
    simp only [mul_one] at h0
    exact h0
  rw [h1, Int.emod_eq_emod_iff_emod_sub_eq_zero]
  obtain ⟨q, hq⟩ := hdvd
  have : x.tmod m - x = -(m * q) := by omega
  rw [this]
  simp [Int.neg_emod, Int.mul_emod_right]

/-! ## utils.js — shared utilities -/

/-- Value of one hex digit, `none` for a non-hex character. -/
def hexDigitVal (c : Char) : Option Nat :=
  if 48 ≤ c.toNat ∧ c.toNat ≤ 57 then some (c.toNat - 48)
  else if 97 ≤ c.toNat ∧ c.toNat ≤ 102 then some (c.toNat - 87)
  else if 65 ≤ c.toNat ∧ c.toNat ≤ 70 then some (c.toNat - 55)
  else none

/-- `parseInt(s, 16)` on the 1- or 2-character chunks produced by `hexToBytes`:
longest hex-digit prefix, `none` (`NaN`) when the first character is not a hex
digit, and the `"0x"` / `"0X"` radix-prefix edge case. (Whitespace and sign
characters, which `parseInt` would also strip, are not modelled; no theorem
below feeds them in.) -/
def jsParseIntHex : List Char → Option Nat
  | [c] => hexDigitVal c
  | [c1, c2] =>
    if c1 = '0' ∧ (c2 = 'x' ∨ c2 = 'X') then none
    else
      match hexDigitVal c1, hexDigitVal c2 with
      | none, _ => none
      | some d1, none => some d1
      | some d1, some d2 => some (16 * d1 + d2)
  | _ => none

/-- Loop body of `hexToBytes` (utils.js): `parseInt(hex.substring(i, i+2), 16)`
for `i = 0, 2, 4, ...`; an odd-length string ends with a single-character
chunk. -/
def hexToBytesAux : List Char → List (Option Nat)
  | [] => []
  | [c] => [jsParseIntHex [c]]
  | c1 :: c2 :: rest => jsParseIntHex [c1, c2] :: hexToBytesAux rest

/-- `hexToBytes` (utils.js). The source performs no validation and never
throws; a non-hex chunk simply yields `NaN`, embedded as `none`. -/
def hexToBytes (hex : String) : List (Option Nat) :=
  hexToBytesAux hex.data

/-- `b.toString(16).padStart(2, '0')` for one byte. -/
def jsByteToHex (b : Nat) : String :=
  let s := String.mk (Nat.toDigits 16 b)
  if s.length < 2 then String.mk (List.replicate (2 - s.length) '0' ++ s.data) else s

/-- `bytesToHex` (utils.js). -/
def bytesToHex (bytes : List Nat) : String :=
  String.join (bytes.map jsByteToHex)

/-- Read entry `(r, c)` of a matrix embedded as a list of rows; out-of-range
reads (JS `undefined`) default to `0`. -/
def mGet (m : List (List Nat)) (r c : Nat) : Nat :=
  (m.getD r []).getD c 0

/-- `bytesToMatrix` (utils.js): the source fills `matrix[i % 4][i / 4] =
bytes[i]` for `i = 0..15`, i.e. row `r`, column `c` holds `bytes[c * 4 + r]`. -/
def bytesToMatrix (bytes : List Nat) : List (List Nat) :=
  (List.range 4).map (fun r => (List.range 4).map (fun c => bytes.getD (c * 4 + r) 0))

/-- `matrixToBytes` (utils.js): `bytes[col * 4 + row] = matrix[row][col]`, so
flat index `j` holds `matrix[j % 4][j / 4]`. -/
def matrixToBytes (m : List (List Nat)) : List Nat :=
  (List.range 16).map (fun j => mGet m (j % 4) (j / 4))

/-- `xorBytes` (utils.js): `a.map((val, i) => val ^ b[i])`. There is no length
check; when `b` is shorter, `val ^ undefined` coerces `undefined` to `0`. -/
def xorBytes (a b : List Nat) : List Nat :=
  a.mapIdx (fun i val => val ^^^ b.getD i 0)

/-- `clone2DArray` (utils.js) deep-copies a matrix; under Lean's value
semantics it is the identity. -/
def clone2DArray (m : List (List Nat)) : List (List Nat) := m

/-- Loop of `modPow` (utils.js), square-and-multiply over `BigInt`s (embedded
as unbounded `Nat`): while `e > 0`, multiply the accumulator by `b` when `e` is
odd, then halve `e` and square `b`. -/
def modPowLoop (b e m result : Nat) : Nat :=
  if e = 0 then result
  else modPowLoop (b * b % m) (e / 2) m (if e % 2 = 1 then result * b % m else result)
termination_by e
decreasing_by exact Nat.div_lt_self (Nat.pos_of_ne_zero (by assumption)) (by norm_num)

/-- `modPow` (utils.js): `(base ^ exp) mod mod` via `BigInt` arithmetic. -/
def modPow (base exp m : Nat) : Nat :=
  modPowLoop (base % m) exp m 1

/-- `gcd` (utils.js): Euclidean algorithm (`Math.abs` is the identity on the
`Nat`-valued inputs used by the repository). -/
def gcdJS (a b : Nat) : Nat :=
  if b = 0 then a else gcdJS b (a % b)
termination_by b
decreasing_by exact Nat.mod_lt _ (Nat.pos_of_ne_zero (by assumption))

/-- Loop of `modInverse` (utils.js), the extended Euclidean algorithm keeping
the remainder pair (always nonnegative) and the Bézout coefficient pair (which
can go negative, hence `Int`). `Math.floor(old_r / r)` on nonnegative operands
is `Nat` division. -/
def egcdLoop (old_r r : Nat) (old_s s : Int) : Nat × Int :=
  if r = 0 then (old_r, old_s)
  else egcdLoop r (old_r - old_r / r * r) s (old_s - (old_r / r : Nat) * s)
termination_by r
decreasing_by
  have h1 := Nat.div_add_mod old_r r
  have h2 := Nat.mod_lt old_r (Nat.pos_of_ne_zero (by assumption))
  have h3 : old_r / r * r = r * (old_r / r) := Nat.mul_comm _ _
  omega

/-- `modInverse` (utils.js): extended Euclid, throwing when `gcd(a, m) ≠ 1`,
with the result normalised into `[0, m)` by `((old_s % m) + m) % m`. -/
def modInverse (a m : Nat) : Except JSError Nat :=
  let res := egcdLoop a m 1 0
  if res.1 ≠ 1 then .error (.rangeError "逆元は存在しません")
  else .ok (jsMod res.2 m).toNat

/-! ## caesar.js — Caesar cipher -/

/-- Result record of `shiftChar` (caesar.js). -/
structure CharResult where
  original : Char
  shifted : Char
  isAlpha : Bool
  base : Nat
  pos : Nat
  newPos : Nat
deriving DecidableEq

/-- `shiftChar` (caesar.js): shift one character; `A–Z` and `a–z` rotate inside
their 26-letter alphabet via `((pos + shift) % 26 + 26) % 26`, everything else
passes through. `charCodeAt(0)` is the character's code point (`Char.toNat`)
for all BMP characters; astral characters have a surrogate code unit there,
which like every non-BMP value falls outside both alphabetic ranges, so they
pass through in source and embedding alike. -/
def shiftChar (char : Char) (shift : Int) : CharResult :=
  let code := char.toNat
  if 65 ≤ code ∧ code ≤ 90 then
    let base := 65
    let pos := code - base
    let newPos := (jsMod ((pos : Int) + shift) 26).toNat
    ⟨char, Char.ofNat (base + newPos), true, base, pos, newPos⟩
  else if 97 ≤ code ∧ code ≤ 122 then
    let base := 97
    let pos := code - base
    let newPos := (jsMod ((pos : Int) + shift) 26).toNat
    ⟨char, Char.ofNat (base + newPos), true, base, pos, newPos⟩
  else
    ⟨char, char, false, 0, 0, 0⟩

/-- `caesarEncrypt` (caesar.js): map `shiftChar` over the characters and join. -/
def caesarEncrypt (text : String) (shift : Int) : String :=
  String.mk (text.data.map (fun ch => (shiftChar ch shift).shifted))

/-- `caesarDecrypt` (caesar.js): literally `caesarEncrypt(text, -shift)`. -/
def caesarDecrypt (text : String) (shift : Int) : String :=
  caesarEncrypt text (-shift)

/-- Per-character progress tag attached to each `charResults` entry of a step. -/
inductive CharStatus where
  | pending
  | active
  | done
deriving DecidableEq

/-- One `{ ...r, status }` entry of a step's `charResults`. -/
structure CaesarCharView where
  result : CharResult
  status : CharStatus
deriving DecidableEq

/-- One step record of `buildCaesarSteps` (caesar.js). The presentation-only
`label` / `description` / `formula` / `values` strings are not embedded; all
other fields are. `currentCharIndex` is `none` on the steps that do not carry
it. -/
structure CaesarStep where
  algorithm : String
  id : String
  phase : String
  plaintext : String
  shift : Nat
  currentCharIndex : Option Nat
  charResults : List CaesarCharView
  ciphertextSoFar : String
deriving DecidableEq

/-- Inhabitant used only as the `List.getD` default when stating theorems. -/
def dummyCaesarStep : CaesarStep :=
  ⟨"", "", "", "", 0, none, [], ""⟩

/-- The per-character steps of `buildCaesarSteps`: step `i` marks entry `j` as
`done` for `j < i`, `active` at `j = i`, `pending` after, and carries the
ciphertext built so far (the loop accumulator after `i + 1` iterations equals
the length-`(i + 1)` prefix of the final ciphertext). -/
def caesarCharSteps (plaintext : String) (ns : Nat) (charResults : List CharResult) :
    List CaesarStep :=
  (List.range charResults.length).map (fun i =>
    { algorithm := "caesar"
      id := "caesar-char-" ++ toString i
      phase := "encrypt"
      plaintext := plaintext
      shift := ns
      currentCharIndex := some i
      charResults := charResults.mapIdx (fun j cr =>
        ⟨cr, if j < i then .done else if j = i then .active else .pending⟩)
      ciphertextSoFar := String.mk (((charResults.take (i + 1)).map CharResult.shifted)) })

/-- `buildCaesarSteps` (caesar.js): throws on empty text or a shift that
normalises to 0; otherwise one overview step, one step per character, a result
step and a decrypt-verification step. -/
def buildCaesarSteps (plaintext : String) (shift : Int) : Except JSError (List CaesarStep) :=
  if plaintext.length = 0 then .error (.rangeError "テキストを入力してください。")
  else
    let normalizedShift := (jsMod shift 26).toNat
    if normalizedShift = 0 then .error (.rangeError "シフト量は1〜25の範囲で指定してください。")
    else
      let chars := plaintext.data
      let charResults := chars.map (fun ch => shiftChar ch (normalizedShift : Int))
      let fullCiphertext := String.mk (charResults.map CharResult.shifted)
      let overview : CaesarStep :=
        { algorithm := "caesar", id := "caesar-overview", phase := "overview"
          plaintext := plaintext, shift := normalizedShift, currentCharIndex := none
          charResults := charResults.map (⟨·, .pending⟩), ciphertextSoFar := "" }
      let charSteps := caesarCharSteps plaintext normalizedShift charResults
      let result : CaesarStep :=
        { algorithm := "caesar", id := "caesar-result", phase := "result"
          plaintext := plaintext, shift := normalizedShift, currentCharIndex := none
          charResults := charResults.map (⟨·, .done⟩), ciphertextSoFar := fullCiphertext }
      let verify : CaesarStep :=
        { algorithm := "caesar", id := "caesar-decrypt-verify", phase := "decrypt"
          plaintext := plaintext, shift := normalizedShift, currentCharIndex := none
          charResults := charResults.map (⟨·, .done⟩), ciphertextSoFar := fullCiphertext }
      .ok (overview :: charSteps ++ [result, verify])

/-! ## aes-constants.js — AES tables

`aes-constants.js` itself is not among the provided sources (only its importers
are), so the three tables are modelled from the specification. -/

/-- Modelled from the spec: `SBOX` of the missing `aes-constants.js` — the
"fixed 256-entry lookup table" of SubBytes, i.e. the AES S-box of FIPS-197.
The known-answer test vector proved below validates every entry this trace
exercises. -/
def SBOX : List Nat :=
  [0x63, 0x7c, 0x77, 0x7b, 0xf2, 0x6b, 0x6f, 0xc5, 0x30, 0x01, 0x67, 0x2b, 0xfe, 0xd7, 0xab, 0x76,
   0xca, 0x82, 0xc9, 0x7d, 0xfa, 0x59, 0x47, 0xf0, 0xad, 0xd4, 0xa2, 0xaf, 0x9c, 0xa4, 0x72, 0xc0,
   0xb7, 0xfd, 0x93, 0x26, 0x36, 0x3f, 0xf7, 0xcc, 0x34, 0xa5, 0xe5, 0xf1, 0x71, 0xd8, 0x31, 0x15,
   0x04, 0xc7, 0x23, 0xc3, 0x18, 0x96, 0x05, 0x9a, 0x07, 0x12, 0x80, 0xe2, 0xeb, 0x27, 0xb2, 0x75,
   0x09, 0x83, 0x2c, 0x1a, 0x1b, 0x6e, 0x5a, 0xa0, 0x52, 0x3b, 0xd6, 0xb3, 0x29, 0xe3, 0x2f, 0x84,
   0x53, 0xd1, 0x00, 0xed, 0x20, 0xfc, 0xb1, 0x5b, 0x6a, 0xcb, 0xbe, 0x39, 0x4a, 0x4c, 0x58, 0xcf,
   0xd0, 0xef, 0xaa, 0xfb, 0x43, 0x4d, 0x33, 0x85, 0x45, 0xf9, 0x02, 0x7f, 0x50, 0x3c, 0x9f, 0xa8,
   0x51, 0xa3, 0x40, 0x8f, 0x92, 0x9d, 0x38, 0xf5, 0xbc, 0xb6, 0xda, 0x21, 0x10, 0xff, 0xf3, 0xd2,
   0xcd, 0x0c, 0x13, 0xec, 0x5f, 0x97, 0x44, 0x17, 0xc4, 0xa7, 0x7e, 0x3d, 0x64, 0x5d, 0x19, 0x73,
   0x60, 0x81, 0x4f, 0xdc, 0x22, 0x2a, 0x90, 0x88, 0x46, 0xee, 0xb8, 0x14, 0xde, 0x5e, 0x0b, 0xdb,
   0xe0, 0x32, 0x3a, 0x0a, 0x49, 0x06, 0x24, 0x5c, 0xc2, 0xd3, 0xac, 0x62, 0x91, 0x95, 0xe4, 0x79,
   0xe7, 0xc8, 0x37, 0x6d, 0x8d, 0xd5, 0x4e, 0xa9, 0x6c, 0x56, 0xf4, 0xea, 0x65, 0x7a, 0xae, 0x08,
   0xba, 0x78, 0x25, 0x2e, 0x1c, 0xa6, 0xb4, 0xc6, 0xe8, 0xdd, 0x74, 0x1f, 0x4b, 0xbd, 0x8b, 0x8a,
   0x70, 0x3e, 0xb5, 0x66, 0x48, 0x03, 0xf6, 0x0e, 0x61, 0x35, 0x57, 0xb9, 0x86, 0xc1, 0x1d, 0x9e,
   0xe1, 0xf8, 0x98, 0x11, 0x69, 0xd9, 0x8e, 0x94, 0x9b, 0x1e, 0x87, 0xe9, 0xce, 0x55, 0x28, 0xdf,
   0x8c, 0xa1, 0x89, 0x0d, 0xbf, 0xe6, 0x42, 0x68, 0x41, 0x99, 0x2d, 0x0f, 0xb0, 0x54, 0xbb, 0x16]

/-- Modelled from the spec: `RCON` of the missing `aes-constants.js` — round
constants of the key schedule, indexed `1..10` (`i / NK` in `keyExpansion`);
index 0 is unused. -/
def RCON : List Nat :=
  [0x00, 0x01, 0x02, 0x04, 0x08, 0x10, 0x20, 0x40, 0x80, 0x1b, 0x36]

/-- Modelled from the spec: `MIX_MATRIX` of the missing `aes-constants.js` —
the "fixed 4×4 mix matrix" of MixColumns per the AES specification. -/
def MIX_MATRIX : List (List Nat) :=
  [[2, 3, 1, 1], [1, 2, 3, 1], [1, 1, 2, 3], [3, 1, 1, 2]]

/-! ## aes-operations.js — the four round transformations -/

/-- Loop of `gmul` (aes-operations.js): 8 iterations of shift-and-reduce
GF(2^8) multiplication under the polynomial `0x11b`. -/
def gmulLoop : Nat → Nat → Nat → Nat → Nat
  | 0, _, _, result => result
  | n + 1, a, b, result =>
    let result := if b &&& 1 ≠ 0 then result ^^^ a else result
    let hiBit := a &&& 0x80
    let a := (a <<< 1) &&& 0xff
    let a := if hiBit ≠ 0 then a ^^^ 0x1b else a
    gmulLoop n a (b >>> 1) result

/-- `gmul` (aes-operations.js). -/
def gmul (a b : Nat) : Nat :=
  gmulLoop 8 a b 0

/-- `subBytes` (aes-operations.js): byte-wise S-box substitution. -/
def subBytes (state : List (List Nat)) : List (List Nat) :=
  state.map (fun row => row.map (fun byte => SBOX.getD byte 0))

/-- `shiftRows` (aes-operations.js): row `i` is `[...row.slice(i),
...row.slice(0, i)]`. -/
def shiftRows (state : List (List Nat)) : List (List Nat) :=
  state.mapIdx (fun i row => row.drop i ++ row.take i)

/-- `mixColumns` (aes-operations.js): GF(2^8) dot product of each `MIX_MATRIX`
row with each state column. -/
def mixColumns (state : List (List Nat)) : List (List Nat) :=
  (List.range 4).map (fun row => (List.range 4).map (fun col =>
    gmul (mGet MIX_MATRIX row 0) (mGet state 0 col) ^^^
    gmul (mGet MIX_MATRIX row 1) (mGet state 1 col) ^^^
    gmul (mGet MIX_MATRIX row 2) (mGet state 2 col) ^^^
    gmul (mGet MIX_MATRIX row 3) (mGet state 3 col)))

/-- `addRoundKey` (aes-operations.js): element-wise XOR with the round key. -/
def addRoundKey (state roundKey : List (List Nat)) : List (List Nat) :=
  state.mapIdx (fun r row => row.mapIdx (fun c byte => byte ^^^ mGet roundKey r c))

/-! ## aes-key-expansion.js — AES-128 key schedule -/

/-- `rotWord` (aes-key-expansion.js): `[word[1], word[2], word[3], word[0]]`. -/
def rotWord (word : List Nat) : List Nat :=
  [word.getD 1 0, word.getD 2 0, word.getD 3 0, word.getD 0 0]

/-- `keyExpansion` (aes-key-expansion.js): 16 key bytes → 44 four-byte words
(`W[i] = W[i-4] XOR temp` where `temp` is `W[i-1]`, transformed when
`i % 4 == 0`) → 11 round keys packed column-major
(`key[row][col] = W[r*4+col][row]`). -/
def keyExpansion (keyBytes : List Nat) : List (List (List Nat)) :=
  let W0 := (List.range 4).map (fun i => (keyBytes.drop (i * 4)).take 4)
  let W := (List.range 40).foldl (fun W i0 =>
    let i := i0 + 4
    let temp := W.getD (i - 1) []
    let temp :=
      if i % 4 = 0 then
        let t := (rotWord temp).map (fun b => SBOX.getD b 0)
        match t with
        | t0 :: rest => (t0 ^^^ RCON.getD (i / 4) 0) :: rest
        | [] => []
      else temp
    W ++ [(W.getD (i - 4) []).mapIdx (fun j b => b ^^^ temp.getD j 0)]) W0
  (List.range 11).map (fun r =>
    (List.range 4).map (fun row =>
      (List.range 4).map (fun col => (W.getD (r * 4 + col) []).getD row 0)))

/-! ## aes.js — AES-128 trace builder -/

/-- `detail` payload of an AES step (`null` is `Option.none` on the step). -/
inductive AESDetail where
  | addRoundKeyD (roundKeyIndex : Nat)
  | subBytesD
  | shiftRowsD
  | mixColumnsD
  | completeD (cipherHex : String)
deriving DecidableEq

/-- One step record of `buildAESSteps` (aes.js). The presentation-only
`label` / `description` strings are not embedded; all other fields are. -/
structure AESStep where
  algorithm : String
  id : String
  round : Nat
  operation : String
  state : List (List Nat)
  prevState : Option (List (List Nat))
  roundKey : Option (List (List Nat))
  changedIndices : List Nat
  detail : Option AESDetail
deriving DecidableEq

/-- Inhabitant used only as the `List.getD` default when stating theorems. -/
def dummyAESStep : AESStep :=
  ⟨"", "", 0, "", [], none, none, [], none⟩

/-- `diffIndices` (aes.js): flat row-major indices `r * 4 + c` of the cells
where the two matrices differ, rows outer, columns inner, both ascending. -/
def diffIndices (prev curr : List (List Nat)) : List Nat :=
  ((List.range 4).map (fun r =>
    (List.range 4).filterMap (fun c =>
      if mGet prev r c ≠ mGet curr r c then some (r * 4 + c) else none))).flatten

/-- One full round (SubBytes, ShiftRows, MixColumns, AddRoundKey) of the
`round = 1..9` loop of `buildAESSteps`, returning its four step records and
the state after the round. -/
def aesFullRound (roundKeys : List (List (List Nat))) (round : Nat)
    (state : List (List Nat)) : List AESStep × List (List Nat) :=
  let s1 := subBytes state
  let step1 : AESStep :=
    { algorithm := "aes", id := "aes-round" ++ toString round ++ "-subBytes"
      round := round, operation := "subBytes", state := s1, prevState := some state
      roundKey := none, changedIndices := diffIndices state s1, detail := some .subBytesD }
  let s2 := shiftRows s1
  let step2 : AESStep :=
    { algorithm := "aes", id := "aes-round" ++ toString round ++ "-shiftRows"
      round := round, operation := "shiftRows", state := s2, prevState := some s1
      roundKey := none, changedIndices := diffIndices s1 s2, detail := some .shiftRowsD }
  let s3 := mixColumns s2
  let step3 : AESStep :=
    { algorithm := "aes", id := "aes-round" ++ toString round ++ "-mixColumns"
      round := round, operation := "mixColumns", state := s3, prevState := some s2
      roundKey := none, changedIndices := diffIndices s2 s3, detail := some .mixColumnsD }
  let rk := roundKeys.getD round []
  let s4 := addRoundKey s3 rk
  let step4 : AESStep :=
    { algorithm := "aes", id := "aes-round" ++ toString round ++ "-addRoundKey"
      round := round, operation := "addRoundKey", state := s4, prevState := some s3
      roundKey := some rk, changedIndices := diffIndices s3 s4
      detail := some (.addRoundKeyD round) }
  ([step1, step2, step3, step4], s4)

/-- The `round = 1..9` loop of `buildAESSteps`, as recursion over the list of
round numbers. -/
def aesRounds (roundKeys : List (List (List Nat))) :
    List Nat → List (List Nat) → List AESStep × List (List Nat)
  | [], state => ([], state)
  | r :: rs, state =>
    let p := aesFullRound roundKeys r state
    let q := aesRounds roundKeys rs p.2
    (p.1 ++ q.1, q.2)

/-- `buildAESSteps` (aes.js): initial-state step, initial AddRoundKey, nine
full rounds of four steps, the final round's three steps (no MixColumns) and a
completion step carrying the ciphertext hex. The source performs no input
validation and never throws. `Option.getD 0` interprets the `NaN` entries
`hexToBytes` yields on malformed input; on 32-hex-character inputs (the domain
of every value-level theorem below) no default is ever taken, and the step
count does not depend on the byte values at all. -/
def buildAESSteps (plaintextHex keyHex : String) : List AESStep :=
  let plainBytes := (hexToBytes plaintextHex).map (fun o => o.getD 0)
  let keyBytes := (hexToBytes keyHex).map (fun o => o.getD 0)
  let state0 := bytesToMatrix plainBytes
  let roundKeys := keyExpansion keyBytes
  let stepInitial : AESStep :=
    { algorithm := "aes", id := "aes-initial", round := 0, operation := "initial"
      state := state0, prevState := none, roundKey := none
      changedIndices := [], detail := none }
  let rk0 := roundKeys.getD 0 []
  let state1 := addRoundKey state0 rk0
  let stepRound0 : AESStep :=
    { algorithm := "aes", id := "aes-round0-addRoundKey", round := 0
      operation := "addRoundKey", state := state1, prevState := some state0
      roundKey := some rk0, changedIndices := diffIndices state0 state1
      detail := some (.addRoundKeyD 0) }
  let mid := aesRounds roundKeys ((List.range 9).map (· + 1)) state1
  let midSteps := mid.1
  let state2 := mid.2
  let s1 := subBytes state2
  let stepSub10 : AESStep :=
    { algorithm := "aes", id := "aes-round10-subBytes", round := 10
      operation := "subBytes", state := s1, prevState := some state2
      roundKey := none, changedIndices := diffIndices state2 s1
      detail := some .subBytesD }
  let s2 := shiftRows s1
  let stepShift10 : AESStep :=
    { algorithm := "aes", id := "aes-round10-shiftRows", round := 10
      operation := "shiftRows", state := s2, prevState := some s1
      roundKey := none, changedIndices := diffIndices s1 s2
      detail := some .shiftRowsD }
  let rk10 := roundKeys.getD 10 []
  let s3 := addRoundKey s2 rk10
  let stepARK10 : AESStep :=
    { algorithm := "aes", id := "aes-round10-addRoundKey", round := 10
      operation := "addRoundKey", state := s3, prevState := some s2
      roundKey := some rk10, changedIndices := diffIndices s2 s3
      detail := some (.addRoundKeyD 10) }
  let cipherHex := bytesToHex (matrixToBytes s3)
  let stepComplete : AESStep :=
    { algorithm := "aes", id := "aes-complete", round := 10, operation := "complete"
      state := s3, prevState := none, roundKey := none
      changedIndices := [], detail := some (.completeD cipherHex) }
  stepInitial :: stepRound0 :: midSteps ++ [stepSub10, stepShift10, stepARK10, stepComplete]

/-- The ciphertext hex carried by the completion step at the end of a trace,
when present. -/
def finalCipherHex (steps : List AESStep) : Option String :=
  match steps.getLast? with
  | some st =>
    match st.detail with
    | some (.completeD h) => some h
    | _ => none
  | none => none

/-! ## rsa.js — RSA key generation, encryption, decryption -/

/-- Trial-division loop of `isPrime` (rsa.js): test divisors `i` and `i + 2`
for `i = 5, 11, 17, ...` while `i * i ≤ n`. -/
def trialLoop (n i : Nat) : Bool :=
  if i * i ≤ n then
    if n % i = 0 || n % (i + 2) = 0 then false else trialLoop n (i + 6)
  else true
termination_by n + 1 - i
decreasing_by
  rename_i h _
  rcases Nat.eq_zero_or_pos i with h0 | h0
  · subst h0; omega
  · have : i ≤ i * i := Nat.le_mul_of_pos_left i h0
    omega

/-- `isPrime` (rsa.js): trial division with the 6k ± 1 wheel. -/
def isPrime (n : Nat) : Bool :=
  if n < 2 then false
  else if n < 4 then true
  else if n % 2 = 0 || n % 3 = 0 then false
  else trialLoop n 5

/-- The key-parameter record returned by `generateRSAKeys` (rsa.js). -/
structure RSAKeys where
  p : Nat
  q : Nat
  n : Nat
  phi : Nat
  e : Nat
  d : Nat
deriving DecidableEq

/-- `generateRSAKeys` (rsa.js): validate the primes, their distinctness, the
public exponent's range and coprimality with `φ(n)` (using the repository's
own `gcd`), then derive `d` with `modInverse`. -/
def generateRSAKeys (p q e : Nat) : Except JSError RSAKeys :=
  if isPrime p = false then .error (.rangeError "p は素数ではありません")
  else if isPrime q = false then .error (.rangeError "q は素数ではありません")
  else if p = q then .error (.rangeError "p と q は異なる素数を選んでください")
  else
    let n := p * q
    let phi := (p - 1) * (q - 1)
    if e < 2 ∨ phi ≤ e then .error (.rangeError "e は 2 ≤ e < φ(n) を満たす必要があります")
    else if gcdJS e phi ≠ 1 then .error (.rangeError "e と φ(n) は互いに素ではありません")
    else
      match modInverse e phi with
      | .error err => .error err
      | .ok d => .ok ⟨p, q, n, phi, e, d⟩

/-- `rsaEncrypt` (rsa.js): range-check the message (the `m < 0` half of the
source's check is vacuous on `Nat`), then `C = M^e mod n`. -/
def rsaEncrypt (m e n : Nat) : Except JSError Nat :=
  if n ≤ m then .error (.rangeError "メッセージは 0 ≤ M < n を満たす必要があります")
  else .ok (modPow m e n)

/-- `rsaDecrypt` (rsa.js): `M = C^d mod n`, no range check. -/
def rsaDecrypt (c d n : Nat) : Nat :=
  modPow c d n

/-! ## stepper.js — navigation state machine

The `Stepper` class's private fields become a structure; each mutating method
becomes a function from the old state to the new state paired with the list of
`onStepChange` callback invocations it fires (in order). -/

/-- One `onStepChange` invocation: `(currentStep, prevStep, index, total)`.
`currentStep` is `steps[currentIndex]`, an `Option` because JS indexing yields
`undefined` out of range. -/
structure StepNotif (α : Type) where
  currentStep : Option α
  prevStep : Option α
  index : Nat
  total : Nat
deriving DecidableEq

/-- State of a `Stepper` (stepper.js): the step array and the cursor. -/
structure Stepper (α : Type) where
  steps : List α
  currentIndex : Nat
deriving DecidableEq

/-- `Stepper.#notify` (stepper.js): one callback invocation carrying the step
at the (already updated) cursor. -/
def Stepper.notifyOf {α : Type} (st : Stepper α) (prevStep : Option α) : StepNotif α :=
  ⟨st.steps[st.currentIndex]?, prevStep, st.currentIndex, st.steps.length⟩

/-- `Stepper.next` (stepper.js): advance when not at the last index (the bound
`length - 1` is JS number arithmetic, hence computed in `Int`), else no-op. -/
def Stepper.next {α : Type} (st : Stepper α) : Stepper α × List (StepNotif α) :=
  if (st.currentIndex : Int) < (st.steps.length : Int) - 1 then
    let prevStep := st.steps[st.currentIndex]?
    let st1 : Stepper α := ⟨st.steps, st.currentIndex + 1⟩
    (st1, [st1.notifyOf prevStep])
  else (st, [])

/-- `Stepper.prev` (stepper.js): step back when not at index 0, else no-op. -/
def Stepper.prev {α : Type} (st : Stepper α) : Stepper α × List (StepNotif α) :=
  if 0 < st.currentIndex then
    let prevStep := st.steps[st.currentIndex]?
    let st1 : Stepper α := ⟨st.steps, st.currentIndex - 1⟩
    (st1, [st1.notifyOf prevStep])
  else (st, [])

/-- `Stepper.goTo` (stepper.js): clamp the requested index into
`[0, length - 1]` (in JS number arithmetic) and notify only on an effective
cursor change. -/
def Stepper.goTo {α : Type} (st : Stepper α) (index : Int) : Stepper α × List (StepNotif α) :=
  let clamped := max 0 (min index ((st.steps.length : Int) - 1))
  if clamped ≠ (st.currentIndex : Int) then
    let prevStep := st.steps[st.currentIndex]?
    let st1 : Stepper α := ⟨st.steps, clamped.toNat⟩
    (st1, [st1.notifyOf prevStep])
  else (st, [])

/-- `Stepper.reset` (stepper.js): replace the steps, snap to 0, notify with no
previous step. -/
def Stepper.reset {α : Type} (_st : Stepper α) (newSteps : List α) :
    Stepper α × List (StepNotif α) :=
  let st1 : Stepper α := ⟨newSteps, 0⟩
  (st1, [st1.notifyOf none])

/-- `Stepper.start` (stepper.js): `this.#notify(null)` — fire the callback for
the step at the current cursor, without moving. -/
def Stepper.start {α : Type} (st : Stepper α) : Stepper α × List (StepNotif α) :=
  (st, [st.notifyOf none])

/-- `Stepper.isAtStart` (stepper.js). -/
def Stepper.isAtStart {α : Type} (st : Stepper α) : Bool :=
  st.currentIndex == 0

/-- `Stepper.isAtEnd` (stepper.js): `currentIndex === length - 1` in JS number
arithmetic. -/
def Stepper.isAtEnd {α : Type} (st : Stepper α) : Bool :=
  (st.currentIndex : Int) == (st.steps.length : Int) - 1

/-! ## animator.js — playback driver

The timer is embedded as an event abstraction: `timerActive` mirrors
`#intervalId !== null`, and `tick` is the body of the `setInterval` callback,
which the environment invokes only while the timer is registered. The
`#onStateChange` observer's invocations are returned as a list of the booleans
passed to it. -/

/-- State of an `Animator` (animator.js). -/
structure Animator (α : Type) where
  stepper : Stepper α
  speed : Nat
  playing : Bool
  timerActive : Bool
deriving DecidableEq

/-- `Animator.play` (animator.js): no-op while already playing; otherwise set
playing, register the timer and fire the state-change observer with `true`. -/
def Animator.play {α : Type} (a : Animator α) : Animator α × List Bool :=
  if a.playing then (a, [])
  else ({ a with playing := true, timerActive := true }, [true])

/-- `Animator.pause` (animator.js): no-op while already paused; otherwise
clear playing, cancel the timer and fire the observer with `false`. -/
def Animator.pause {α : Type} (a : Animator α) : Animator α × List Bool :=
  if !a.playing then (a, [])
  else ({ a with playing := false, timerActive := false }, [false])

/-- One firing of the `setInterval` callback registered by `play`
(animator.js): advance the stepper, then auto-pause once it reports
`isAtEnd`. -/
def Animator.tick {α : Type} (a : Animator α) : Animator α × List Bool :=
  if a.timerActive then
    let st1 := a.stepper.next.1
    let a1 : Animator α := { a with stepper := st1 }
    if st1.isAtEnd then a1.pause else (a1, [])
  else (a, [])

/-- `Animator.toggle` (animator.js). -/
def Animator.toggle {α : Type} (a : Animator α) : Animator α × List Bool :=
  if a.playing then a.pause else a.play

/-- `Animator.setSpeed` (animator.js): store the new period; while playing,
restart (pause then play) so no stale-period tick fires. -/
def Animator.setSpeed {α : Type} (a : Animator α) (ms : Nat) : Animator α × List Bool :=
  let a1 : Animator α := { a with speed := ms }
  if a1.playing then
    let (a2, n2) := a1.pause
    let (a3, n3) := a2.play
    (a3, n2 ++ n3)
  else (a1, [])

/-! ## Helper lemmas -/

/-- Entry `(r, c)` of `bytesToMatrix b` is `bytes[c * 4 + r]`. -/
theorem mGet_bytesToMatrix (b : List Nat) {r c : Nat} (hr : r < 4) (hc : c < 4) :
    mGet (bytesToMatrix b) r c = b.getD (c * 4 + r) 0 := by
  interval_cases r <;> interval_cases c <;> rfl

/-- Flat entry `j` of `matrixToBytes m` is `m[j % 4][j / 4]`. -/
theorem matrixToBytes_getD (m : List (List Nat)) {j : Nat} (hj : j < 16) :
    (matrixToBytes m).getD j 0 = mGet m (j % 4) (j / 4) := by
  interval_cases j <;> rfl

/-! ## Claims -/

/-- C4: `bytesToMatrix` and `matrixToBytes` are mutually inverse on 16-byte
arrays and on 4×4 matrices, under the column-major mapping sending byte `i` to
row `i % 4`, column `i / 4`. -/
theorem claim_C4 :
    (∀ b : List Nat, b.length = 16 → matrixToBytes (bytesToMatrix b) = b)
    ∧ (∀ m : List (List Nat), m.length = 4 → (∀ row ∈ m, row.length = 4) →
        bytesToMatrix (matrixToBytes m) = m)
    ∧ (∀ (b : List Nat) (i : Nat), i < 16 →
        mGet (bytesToMatrix b) (i % 4) (i / 4) = b.getD i 0) := by
  refine ⟨?_, ?_, ?_⟩
  · intro b hb
    apply List.ext_getElem
    · simp [matrixToBytes, hb]
    · intro i h1 h2
      have hi : i < 16 := by simpa [matrixToBytes] using h1
      rw [← List.getD_eq_getElem (matrixToBytes (bytesToMatrix b)) 0 h1,
        matrixToBytes_getD _ hi,
        mGet_bytesToMatrix b (Nat.mod_lt _ (by norm_num)) (by omega)]
      have he : i / 4 * 4 + i % 4 = i := by omega
      rw [he, List.getD_eq_getElem _ _ h2]
  · intro m hm hrows
    apply List.ext_getElem
    · simp [bytesToMatrix, hm]
    · intro r h1 h2
      have hr : r < 4 := by simpa [bytesToMatrix] using h1
      have hrow : (bytesToMatrix (matrixToBytes m))[r] =
          (List.range 4).map (fun c => (matrixToBytes m).getD (c * 4 + r) 0) := by
        unfold bytesToMatrix
        simp
      rw [hrow]
      have hrlen : m[r].length = 4 := hrows m[r] (List.getElem_mem h2)
      apply List.ext_getElem
      · simp [hrlen]

      · intro c hc1 hc2
        have hc : c < 4 := by simpa using hc1
        simp only [List.getElem_map, List.getElem_range]
        rw [matrixToBytes_getD _ (by omega)]
        have e1 : (c * 4 + r) % 4 = r := by omega
        have e2 : (c * 4 + r) / 4 = c := by omega
        rw [e1, e2]
        unfold mGet
        have hmr : m.getD r [] = m[r] := List.getD_eq_getElem _ _ (by omega)
        rw [hmr, List.getD_eq_getElem _ _ (by omega)]
  · intro b i hi
    rw [mGet_bytesToMatrix b (Nat.mod_lt _ (by norm_num)) (by omega)]
    have he : i / 4 * 4 + i % 4 = i := by omega
    rw [he]

/-- Witness for C4 at concrete inputs. -/
theorem claim_C4_witness :
    matrixToBytes (bytesToMatrix [0, 1, 2, 3, 4, 5, 6, 7, 8, 9, 10, 11, 12, 13, 14, 15])
      = [0, 1, 2, 3, 4, 5, 6, 7, 8, 9, 10, 11, 12, 13, 14, 15]
    ∧ bytesToMatrix (matrixToBytes [[1, 2, 3, 4], [5, 6, 7, 8], [9, 10, 11, 12], [13, 14, 15, 16]])
      = [[1, 2, 3, 4], [5, 6, 7, 8], [9, 10, 11, 12], [13, 14, 15, 16]] :=
  ⟨claim_C4.1 _ (by decide),
   claim_C4.2.1 _ (by decide) (by decide)⟩

/-- C6 (counterexample): `xorBytes` does not fail on length-mismatched inputs;
`xorBytes [1, 2] [3]` returns the list `[2, 2]` (the missing `b[1]` reads as
`undefined`, which the XOR coerces to 0). The source has no length check and
no throw statement at all, so the claimed LengthMismatch failure cannot
occur. -/
theorem claim_C6_counterexample :
    xorBytes [1, 2] [3] = [2, 2] ∧ (xorBytes [1, 2] [3]).length ≠ (3 : Nat) := by
  constructor
  · rfl
  · decide

/-- C6 (amended): `xorBytes` never fails; it always returns one entry per
entry of `a`, XORing with 0 where `b` is too short, and on equal-length inputs
it is exactly the element-wise XOR. -/
theorem claim_C6_amended :
    (∀ a b : List Nat, a.length = b.length →
      xorBytes a b = List.zipWith (fun x y => x ^^^ y) a b)
    ∧ (∀ a b : List Nat, (xorBytes a b).length = a.length) := by
  constructor
  · intro a
    induction a with
    | nil => intro b h; rfl
    | cons x xs ih =>
      intro b h
      match b with
      | y :: ys =>
        unfold xorBytes at *
        rw [List.mapIdx_cons]
        simp only [List.getD_cons_zero, List.getD_cons_succ, List.zipWith_cons_cons]
        rw [ih ys (by simpa using h)]
  · intro a b
    unfold xorBytes
    exact List.length_mapIdx

/-- Witness for C6 (amended) at concrete inputs. -/
theorem claim_C6_amended_witness :
    xorBytes [0x0f, 0xf0] [0xff, 0xff] = List.zipWith (fun x y => x ^^^ y) [0x0f, 0xf0] [0xff, 0xff]
    ∧ (xorBytes [0x0f, 0xf0] [0xff, 0xff]).length = 2 :=
  ⟨claim_C6_amended.1 [0x0f, 0xf0] [0xff, 0xff] rfl,
   claim_C6_amended.2 [0x0f, 0xf0] [0xff, 0xff]⟩

/-- C7: Stepper navigation never fails and keeps the cursor in bounds:
`next()` at the last index and `prev()` at index 0 are notification-free
no-ops, and `goTo(i)` clamps any integer into `[0, length - 1]` (in
particular `goTo(-5)` moves to 0 and `goTo(1000)` to `length - 1`), firing
exactly one notification per effective cursor change. -/
theorem claim_C7 : ∀ (α : Type) (st : Stepper α),
    (st.steps ≠ [] → st.currentIndex = st.steps.length - 1 → st.next = (st, []))
    ∧ (st.currentIndex = 0 → st.prev = (st, []))
    ∧ (∀ i : Int,
        (st.goTo i).1.steps = st.steps
        ∧ ((st.goTo i).1.currentIndex : Int) = max 0 (min i ((st.steps.length : Int) - 1))
        ∧ (st.goTo i).2.length =
            (if max 0 (min i ((st.steps.length : Int) - 1)) ≠ (st.currentIndex : Int)
             then 1 else 0))
    ∧ (st.steps ≠ [] → (st.goTo (-5)).1.currentIndex = 0)
    ∧ (st.steps ≠ [] → st.steps.length ≤ 1001 →
        (st.goTo 1000).1.currentIndex = st.steps.length - 1) := by
  intro α st
  have hclamp : ∀ i : Int,
      (st.goTo i).1.steps = st.steps
      ∧ ((st.goTo i).1.currentIndex : Int) = max 0 (min i ((st.steps.length : Int) - 1))
      ∧ (st.goTo i).2.length =
          (if max 0 (min i ((st.steps.length : Int) - 1)) ≠ (st.currentIndex : Int)
           then 1 else 0) := by
    intro i
    simp only [Stepper.goTo]
    by_cases h : max 0 (min i ((st.steps.length : Int) - 1)) ≠ (st.currentIndex : Int)
    · rw [if_pos h]
      exact ⟨rfl, Int.toNat_of_nonneg (le_max_left _ _), by rw [if_pos h]; rfl⟩
    · rw [if_neg h]
      push_neg at h
      exact ⟨rfl, h.symm, by rw [if_neg (by push_neg; exact h)]; rfl⟩
  refine ⟨?_, ?_, hclamp, ?_, ?_⟩
  · intro hne hlast
    unfold Stepper.next
    have hlen : 1 ≤ st.steps.length := List.length_pos.mpr hne
    rw [if_neg]
    omega
  · intro h0
    unfold Stepper.prev
    rw [if_neg]
    omega
  · intro hne
    have h := (hclamp (-5)).2.1
    have hlen : 1 ≤ st.steps.length := List.length_pos.mpr hne
    omega
  · intro hne hsmall
    have h := (hclamp 1000).2.1
    have hlen : 1 ≤ st.steps.length := List.length_pos.mpr hne
    omega

/-- Witness for C7 at a concrete stepper. -/
theorem claim_C7_witness :
    (Stepper.next (⟨[7, 8, 9], 2⟩ : Stepper Nat) = (⟨[7, 8, 9], 2⟩, []))
    ∧ (Stepper.prev (⟨[7, 8, 9], 0⟩ : Stepper Nat) = (⟨[7, 8, 9], 0⟩, []))
    ∧ ((Stepper.goTo (⟨[7, 8, 9], 1⟩ : Stepper Nat) (-5)).1.currentIndex = 0)
    ∧ ((Stepper.goTo (⟨[7, 8, 9], 1⟩ : Stepper Nat) 1000).1.currentIndex = 2) :=
  ⟨(claim_C7 Nat ⟨[7, 8, 9], 2⟩).1 (by decide) (by decide),
   (claim_C7 Nat ⟨[7, 8, 9], 0⟩).2.1 (by decide),
   (claim_C7 Nat ⟨[7, 8, 9], 1⟩).2.2.2.1 (by decide),
   (claim_C7 Nat ⟨[7, 8, 9], 1⟩).2.2.2.2 (by decide) (by decide)⟩

/-- C8 (counterexample): `start()` does not re-announce index 0 — on a Stepper
whose cursor sits at index 2 it notifies with the step at index 2 and index 2,
not with the step at index 0 and index 0 as claimed. -/
theorem claim_C8_counterexample :
    (Stepper.start (⟨[10, 20, 30], 2⟩ : Stepper Nat)).2 = [⟨some 30, none, 2, 3⟩]
    ∧ (Stepper.start (⟨[10, 20, 30], 2⟩ : Stepper Nat)).2 ≠ [⟨some 10, none, 0, 3⟩] := by
  exact ⟨rfl, by decide⟩

/-- C8 (amended): `start()` leaves the cursor unchanged and invokes the
observer exactly once with the step at the *current* index, no previous step,
the current index and the total length; when the cursor is at 0 (as right
after construction) this re-announces index 0 exactly as claimed. -/
theorem claim_C8_amended : ∀ (α : Type) (st : Stepper α),
    Stepper.start st
      = (st, [⟨st.steps[st.currentIndex]?, none, st.currentIndex, st.steps.length⟩])
    ∧ (st.currentIndex = 0 →
        Stepper.start st = (st, [⟨st.steps[0]?, none, 0, st.steps.length⟩])) := by
  intro α st
  refine ⟨rfl, ?_⟩
  intro h0
  rw [show Stepper.start st
      = (st, [⟨st.steps[st.currentIndex]?, none, st.currentIndex, st.steps.length⟩]) from rfl,
    h0]

/-- Witness for C8 (amended) at a concrete stepper. -/
theorem claim_C8_amended_witness :
    Stepper.start (⟨[10, 20, 30], 0⟩ : Stepper Nat)
      = (⟨[10, 20, 30], 0⟩, [⟨some 10, none, 0, 3⟩]) :=
  (claim_C8_amended Nat ⟨[10, 20, 30], 0⟩).2 rfl

/-- C9: while playing (timer registered), the tick that advances the Stepper
onto its last index auto-pauses: playing becomes false, the timer is
cancelled, and the state-change observer is invoked with `false` — all
without an external `pause()` call; `play()` while playing and `pause()`
while paused are notification-free no-ops. -/
theorem claim_C9 : ∀ (α : Type) (a : Animator α),
    (a.playing = true → a.timerActive = true → a.stepper.next.1.isAtEnd = true →
      a.tick = ((⟨a.stepper.next.1, a.speed, false, false⟩ : Animator α), [false]))
    ∧ (a.playing = true → a.play = (a, []))
    ∧ (a.playing = false → a.pause = (a, [])) := by
  intro α a
  refine ⟨?_, ?_, ?_⟩
  · intro hp ht hend
    unfold Animator.tick
    rw [if_pos ht, if_pos hend]
    unfold Animator.pause
    rw [if_neg (by simp [hp])]
  · intro hp
    unfold Animator.play
    rw [if_pos hp]
  · intro hp
    unfold Animator.pause
    rw [if_pos (by simp [hp])]

/-- Witness for C9 at a concrete animator one step from the end. -/
theorem claim_C9_witness :
    Animator.tick (⟨⟨[0, 1], 0⟩, 800, true, true⟩ : Animator Nat)
      = (⟨⟨[0, 1], 1⟩, 800, false, false⟩, [false])
    ∧ Animator.play (⟨⟨[0, 1], 0⟩, 800, true, true⟩ : Animator Nat)
      = (⟨⟨[0, 1], 0⟩, 800, true, true⟩, [])
    ∧ Animator.pause (⟨⟨[0, 1], 0⟩, 800, false, false⟩ : Animator Nat)
      = (⟨⟨[0, 1], 0⟩, 800, false, false⟩, []) :=
  ⟨(claim_C9 Nat ⟨⟨[0, 1], 0⟩, 800, true, true⟩).1 rfl rfl (by decide),
   (claim_C9 Nat ⟨⟨[0, 1], 0⟩, 800, true, true⟩).2.1 rfl,
   (claim_C9 Nat ⟨⟨[0, 1], 0⟩, 800, false, false⟩).2.2 rfl⟩

/-- `Char.toNat` is a left inverse of `Char.ofNat` below the surrogate range. -/
theorem char_toNat_ofNat {n : Nat} (h : n < 55296) : (Char.ofNat n).toNat = n := by
  rw [Char.ofNat, dif_pos (Or.inl h : n.isValidChar)]
  simp [Char.ofNatAux, Char.toNat, UInt32.toNat, BitVec.toNat_ofNatLt]

/-- Arithmetic core of the Caesar round trip: shifting a position `pos < 26`
by `s` and then by `-s` lands back on `pos`. -/
theorem caesar_pos_roundtrip (pos : Nat) (s : Int) (hpos : pos < 26) :
    (jsMod ((pos : Int) + s) 26).toNat < 26
    ∧ (jsMod (((jsMod ((pos : Int) + s) 26).toNat : Int) + -s) 26).toNat = pos := by
  have h26 : (0 : Int) < 26 := by norm_num
  rw [jsMod_eq_emod _ _ h26]
  set z := ((pos : Int) + s) % 26 with hz
  have hz0 : 0 ≤ z := Int.emod_nonneg _ (by norm_num)
  have hz26 : z < 26 := Int.emod_lt_of_pos _ h26
  have hcast : (z.toNat : Int) = z := Int.toNat_of_nonneg hz0
  refine ⟨by omega, ?_⟩
  rw [jsMod_eq_emod _ _ h26, hcast]
  have e1 : (z + -s) % 26 = ((pos : Int) + s + -s) % 26 := by
    rw [Int.add_emod z (-s), hz, Int.emod_emod_of_dvd _ dvd_rfl,
      ← Int.add_emod]
  have e2 : (pos : Int) + s + -s = (pos : Int) := by ring
  rw [e1, e2, Int.emod_eq_of_lt (Int.natCast_nonneg pos) (by exact_mod_cast hpos)]
  omega

/-- `shiftChar` on an uppercase letter, with the branch resolved. -/
theorem shiftChar_upper (c : Char) (s : Int) (h1 : 65 ≤ c.toNat) (h2 : c.toNat ≤ 90) :
    shiftChar c s
      = ⟨c, Char.ofNat (65 + (jsMod (((c.toNat - 65 : Nat) : Int) + s) 26).toNat),
          true, 65, c.toNat - 65, (jsMod (((c.toNat - 65 : Nat) : Int) + s) 26).toNat⟩ := by
  simp only [shiftChar]
  rw [if_pos ⟨h1, h2⟩]

/-- `shiftChar` on a lowercase letter, with the branch resolved. -/
theorem shiftChar_lower (c : Char) (s : Int) (h1 : 97 ≤ c.toNat) (h2 : c.toNat ≤ 122) :
    shiftChar c s
      = ⟨c, Char.ofNat (97 + (jsMod (((c.toNat - 97 : Nat) : Int) + s) 26).toNat),
          true, 97, c.toNat - 97, (jsMod (((c.toNat - 97 : Nat) : Int) + s) 26).toNat⟩ := by
  simp only [shiftChar]
  rw [if_neg (by omega), if_pos ⟨h1, h2⟩]

/-- `shiftChar` on a non-alphabetic character passes it through. -/
theorem shiftChar_other (c : Char) (s : Int)
    (h1 : ¬(65 ≤ c.toNat ∧ c.toNat ≤ 90)) (h2 : ¬(97 ≤ c.toNat ∧ c.toNat ≤ 122)) :
    shiftChar c s = ⟨c, c, false, 0, 0, 0⟩ := by
  simp only [shiftChar]
  rw [if_neg h1, if_neg h2]

/-- Per-character Caesar round trip: shifting by `s` and then by `-s` restores
the character. -/
theorem shiftChar_roundtrip (c : Char) (s : Int) :
    (shiftChar (shiftChar c s).shifted (-s)).shifted = c := by
  by_cases h1 : 65 ≤ c.toNat ∧ c.toNat ≤ 90
  · obtain ⟨hlt, hrt⟩ := caesar_pos_roundtrip (c.toNat - 65) s (by omega)
    rw [shiftChar_upper c s h1.1 h1.2]
    dsimp only
    set np := (jsMod (((c.toNat - 65 : Nat) : Int) + s) 26).toNat with hnp
    have hcode : (Char.ofNat (65 + np)).toNat = 65 + np := char_toNat_ofNat (by omega)
    rw [shiftChar_upper (Char.ofNat (65 + np)) (-s) (by omega) (by omega)]
    dsimp only
    rw [hcode]
    have e : 65 + np - 65 = np := by omega
    rw [e, hrt]
    have e2 : 65 + (c.toNat - 65) = c.toNat := by omega
    rw [e2, Char.ofNat_toNat]
  · by_cases h2 : 97 ≤ c.toNat ∧ c.toNat ≤ 122
    · obtain ⟨hlt, hrt⟩ := caesar_pos_roundtrip (c.toNat - 97) s (by omega)
      rw [shiftChar_lower c s h2.1 h2.2]
      dsimp only
      set np := (jsMod (((c.toNat - 97 : Nat) : Int) + s) 26).toNat with hnp
      have hcode : (Char.ofNat (97 + np)).toNat = 97 + np := char_toNat_ofNat (by omega)
      rw [shiftChar_lower (Char.ofNat (97 + np)) (-s) (by omega) (by omega)]
      dsimp only
      rw [hcode]
      have e : 97 + np - 97 = np := by omega
      rw [e, hrt]
      have e2 : 97 + (c.toNat - 97) = c.toNat := by omega
      rw [e2, Char.ofNat_toNat]
    · rw [shiftChar_other c s h1 h2]
      dsimp only
      rw [shiftChar_other c (-s) h1 h2]

/-- C3: `caesarDecrypt(text, shift)` is definitionally
`caesarEncrypt(text, -shift)`; encrypt-then-decrypt is the identity for every
text and every shift in `1..25`; and the worked example holds. -/
theorem claim_C3 :
    (∀ (text : String) (shift : Int), caesarDecrypt text shift = caesarEncrypt text (-shift))
    ∧ (∀ (text : String) (s : Int), 1 ≤ s → s ≤ 25 →
        caesarDecrypt (caesarEncrypt text s) s = text)
    ∧ caesarEncrypt "Hello, World!" 3 = "Khoor, Zruog!" := by
  refine ⟨fun text shift => rfl, ?_, by decide⟩
  intro text s hs1 hs2
  unfold caesarDecrypt caesarEncrypt
  cases text with
  | mk data =>
    dsimp only
    rw [List.map_map]
    congr 1
    calc List.map ((fun ch => (shiftChar ch (-s)).shifted) ∘ fun ch => (shiftChar ch s).shifted)
          data
        = List.map id data := by
          apply List.map_congr_left
          intro ch _
          exact shiftChar_roundtrip ch s
      _ = data := List.map_id data

/-- Witness for C3 at a concrete text and shift. -/
theorem claim_C3_witness :
    caesarDecrypt (caesarEncrypt "Attack at Dawn!" 5) 5 = "Attack at Dawn!" :=
  claim_C3.2.1 "Attack at Dawn!" 5 (by norm_num) (by norm_num)

/-- Length of the per-character step list. -/
theorem caesarCharSteps_length (pt : String) (ns : Nat) (crs : List CharResult) :
    (caesarCharSteps pt ns crs).length = crs.length := by
  unfold caesarCharSteps
  rw [List.length_map, List.length_range]

/-- `getD` at the first of the two steps appended after the per-character
steps. -/
theorem getD_append_pair_left (l : List CaesarStep) (b c d : CaesarStep) :
    (l ++ [b, c]).getD l.length d = b := by
  rw [List.getD_eq_getElem _ _ (by simp),
    List.getElem_append_right (Nat.le_refl l.length)]
  simp

/-- `getD` at the second of the two steps appended after the per-character
steps. -/
theorem getD_append_pair_right (l : List CaesarStep) (b c d : CaesarStep) :
    (l ++ [b, c]).getD (l.length + 1) d = c := by
  rw [List.getD_eq_getElem _ _ (by simp), List.getElem_append_right (by omega)]
  simp

/-- C10: on non-empty text with a shift normalising to a non-zero value,
`buildCaesarSteps` returns `length(text) + 3` steps (overview, one per
character, result, decrypt-verification); per-character step `i` (at trace
index `i + 1`) marks every `charResults` entry before `i` as `done`, entry `i`
as `active` and every later entry as `pending`; the overview step marks all
entries `pending` and the result and verification steps mark all `done`. -/
theorem claim_C10 (text : String) (shift : Int)
    (hne : ¬text.length = 0) (hs : ¬(jsMod shift 26).toNat = 0) :
    ∃ steps, buildCaesarSteps text shift = .ok steps
      ∧ steps.length = text.length + 3
      ∧ (∀ v ∈ (steps.getD 0 dummyCaesarStep).charResults, v.status = .pending)
      ∧ (∀ i, i < text.length →
          (steps.getD (i + 1) dummyCaesarStep).charResults.length = text.length
          ∧ ∀ (j : Nat) (hj : j < (steps.getD (i + 1) dummyCaesarStep).charResults.length),
              ((steps.getD (i + 1) dummyCaesarStep).charResults[j]).status
                = (if j < i then .done else if j = i then .active else .pending))
      ∧ (∀ v ∈ (steps.getD (text.length + 1) dummyCaesarStep).charResults, v.status = .done)
      ∧ (∀ v ∈ (steps.getD (text.length + 2) dummyCaesarStep).charResults, v.status = .done) := by
  have hdata : text.length = text.data.length := rfl
  simp only [buildCaesarSteps]
  rw [if_neg hne, if_neg hs]
  simp only [List.cons_append]
  set ns := (jsMod shift 26).toNat with hns
  set crs := text.data.map (fun ch => shiftChar ch (ns : Int)) with hcrs
  have hcrslen : crs.length = text.length := by
    rw [hcrs, List.length_map, hdata]
  have hmidlen : (caesarCharSteps text ns crs).length = text.length := by
    rw [caesarCharSteps_length, hcrslen]
  refine ⟨_, rfl, ?_, ?_, ?_, ?_, ?_⟩
  · -- length
    simp only [List.length_cons, List.length_append, List.length_nil, hmidlen]
    try omega
  · -- overview: all pending
    intro v hv
    simp only [List.getD_cons_zero, List.mem_map] at hv
    obtain ⟨cr, _, rfl⟩ := hv
    rfl
  · -- per-character steps
    intro i hi
    have hi2 : i < (caesarCharSteps text ns crs).length := by omega
    have hstep : ∀ b c : CaesarStep,
        ((caesarCharSteps text ns crs ++ [b, c]).getD i dummyCaesarStep)
          = (caesarCharSteps text ns crs)[i] := by
      intro b c
      rw [List.getD_eq_getElem _ _ (by simp only [List.length_append]; omega),
        List.getElem_append_left hi2]
    simp only [List.getD_cons_succ]
    simp only [hstep]
    simp only [caesarCharSteps, List.getElem_map, List.getElem_range]
    constructor
    · rw [List.length_mapIdx, hcrslen]
    · intro j hj
      simp only [List.getElem_mapIdx]
  · -- result step: all done
    intro v hv
    simp only [List.getD_cons_succ] at hv
    rw [← hmidlen, getD_append_pair_left] at hv
    simp only [List.mem_map] at hv
    obtain ⟨cr, _, rfl⟩ := hv
    rfl
  · -- verification step: all done
    intro v hv
    simp only [List.getD_cons_succ] at hv
    rw [← hmidlen, getD_append_pair_right] at hv
    simp only [List.mem_map] at hv
    obtain ⟨cr, _, rfl⟩ := hv
    rfl

/-- Witness for C10 at a concrete text and shift. -/
theorem claim_C10_witness :
    ∃ steps, buildCaesarSteps "ab" 1 = .ok steps
      ∧ steps.length = "ab".length + 3
      ∧ (∀ v ∈ (steps.getD 0 dummyCaesarStep).charResults, v.status = .pending)
      ∧ (∀ i, i < "ab".length →
          (steps.getD (i + 1) dummyCaesarStep).charResults.length = "ab".length
          ∧ ∀ (j : Nat) (hj : j < (steps.getD (i + 1) dummyCaesarStep).charResults.length),
              ((steps.getD (i + 1) dummyCaesarStep).charResults[j]).status
                = (if j < i then .done else if j = i then .active else .pending))
      ∧ (∀ v ∈ (steps.getD ("ab".length + 1) dummyCaesarStep).charResults, v.status = .done)
      ∧ (∀ v ∈ (steps.getD ("ab".length + 2) dummyCaesarStep).charResults, v.status = .done) :=
  claim_C10 "ab" 1 (by decide) (by decide)

/-- A 32-character hex string, the input format `buildAESSteps`'s spec
prescribes (the source itself checks this only in the UI layer, `validateHex`
in main.js). -/
def isValidHex32 (s : String) : Bool :=
  s.length == 32 && s.data.all (fun c => (hexDigitVal c).isSome)

/-- `hexToBytes` yields one entry per two-character chunk, so
`ceil(length / 2)` entries, whatever the characters are. -/
theorem hexToBytesAux_length : ∀ l : List Char, (hexToBytesAux l).length = (l.length + 1) / 2
  | [] => rfl
  | [_] => by simp [hexToBytesAux]
  | _ :: _ :: rest => by
    simp only [hexToBytesAux, List.length_cons]
    rw [hexToBytesAux_length rest]
    omega

/-- The rounds loop emits four steps per round number. -/
theorem aesRounds_length (roundKeys : List (List (List Nat))) :
    ∀ (rs : List Nat) (state : List (List Nat)),
      (aesRounds roundKeys rs state).1.length = 4 * rs.length
  | [], _ => rfl
  | r :: rs, state => by
    simp only [aesRounds, List.length_append, List.length_cons]
    rw [aesRounds_length roundKeys rs]
    simp [aesFullRound]
    omega

/-- `buildAESSteps` always returns exactly 42 step records, for any input
strings whatsoever: 1 initial state + 1 initial AddRoundKey + 9 rounds × 4 +
3 final-round steps + 1 completion. -/
theorem buildAESSteps_length (p k : String) : (buildAESSteps p k).length = 42 := by
  simp only [buildAESSteps, List.length_append, List.length_cons,
    aesRounds_length, List.length_map, List.length_range, List.length_nil]

/-- C1 (counterexample): on the FIPS-197 known-answer inputs — which are valid
32-hex-character strings — `buildAESSteps` returns 42 steps, not 41: the
claim's own breakdown (1 + 1 + 9·4 + 3 + 1) sums to 42. -/
theorem claim_C1_counterexample :
    isValidHex32 "3243f6a8885a308d313198a2e0370734" = true
    ∧ isValidHex32 "2b7e151628aed2a6abf7158809cf4f3c" = true
    ∧ (buildAESSteps "3243f6a8885a308d313198a2e0370734"
          "2b7e151628aed2a6abf7158809cf4f3c").length = 42
    ∧ ¬(buildAESSteps "3243f6a8885a308d313198a2e0370734"
          "2b7e151628aed2a6abf7158809cf4f3c").length = 41 := by
  refine ⟨by decide, by decide, buildAESSteps_length _ _, ?_⟩
  rw [buildAESSteps_length]
  decide

set_option maxRecDepth 8000 in
/-- C1 (amended): for every pair of valid 32-hex-character plaintext and key
strings `buildAESSteps` returns exactly 42 steps (1 initial state, 1 initial
AddRoundKey, 9 full rounds of 4 steps, a final round of 3 steps without
MixColumns, 1 completion step), and on plaintext
`3243f6a8885a308d313198a2e0370734` with key
`2b7e151628aed2a6abf7158809cf4f3c` the completion step carries ciphertext hex
`3925841d02dc09fbdc118597196a0b32`. -/
theorem claim_C1_amended :
    (∀ p k : String, isValidHex32 p = true → isValidHex32 k = true →
      (buildAESSteps p k).length = 42)
    ∧ finalCipherHex (buildAESSteps "3243f6a8885a308d313198a2e0370734"
        "2b7e151628aed2a6abf7158809cf4f3c")
      = some "3925841d02dc09fbdc118597196a0b32" :=
  ⟨fun p k _ _ => buildAESSteps_length p k, rfl⟩

/-- Witness for C1 (amended) at the known-answer inputs. -/
theorem claim_C1_amended_witness :
    (buildAESSteps "3243f6a8885a308d313198a2e0370734"
        "2b7e151628aed2a6abf7158809cf4f3c").length = 42 :=
  claim_C1_amended.1 "3243f6a8885a308d313198a2e0370734" "2b7e151628aed2a6abf7158809cf4f3c"
    (by decide) (by decide)

/-- C5 (counterexample): neither `hexToBytes` nor `buildAESSteps` fails on
malformed input — neither contains a throw statement. `hexToBytes "zz"`
returns the one-element list `[NaN]`, `hexToBytes "abc"` (odd length) returns
`[0xab, 0xc]`, and `buildAESSteps` on empty strings still returns a 42-step
trace; the FormatError the claim requires does not exist in the code (the
32-hex check lives in the caller, `validateHex` in main.js). -/
theorem claim_C5_counterexample :
    hexToBytes "zz" = [none]
    ∧ hexToBytes "abc" = [some 0xab, some 0xc]
    ∧ (buildAESSteps "" "").length = 42 :=
  ⟨rfl, rfl, buildAESSteps_length "" ""⟩

/-- C5 (amended): `hexToBytes` and `buildAESSteps` never fail. `hexToBytes`
parses two-character chunks without validation — a chunk whose first character
is not a hex digit yields `NaN`, an odd-length string ends in a one-character
chunk — returning `ceil(length / 2)` entries; `buildAESSteps` performs no
format check and returns its 42 steps for arbitrary input strings. Hex
validation is the calling UI layer's job (`validateHex` in main.js). -/
theorem claim_C5_amended :
    (∀ s : String, (hexToBytes s).length = (s.length + 1) / 2)
    ∧ (∀ p k : String, (buildAESSteps p k).length = 42) :=
  ⟨fun s => hexToBytesAux_length s.data, buildAESSteps_length⟩

/-! ## RSA helper lemmas -/

/-- Soundness of the trial-division loop: a run returning `true` from `i`
rules out every divisor `j ≥ i` with `j*j ≤ n` lying on the wheel
(`j ≡ i` or `j ≡ i + 2` modulo 6). -/
theorem trialLoop_sound (n : Nat) : ∀ i : Nat, trialLoop n i = true →
    ∀ j, i ≤ j → j * j ≤ n → ((j - i) % 6 = 0 ∨ (j - i) % 6 = 2) → n % j ≠ 0 := by
  intro i
  induction i using trialLoop.induct n with
  | case1 i hle hdvd =>
    intro h
    rw [trialLoop, if_pos hle, if_pos hdvd] at h
    exact absurd h (by simp)
  | case2 i hle hdvd ih =>
    intro h j hij hjj hres
    have hrec : trialLoop n (i + 6) = true := by
      rw [trialLoop, if_pos hle, if_neg hdvd] at h
      exact h
    simp only [Bool.or_eq_true, decide_eq_true_eq, not_or] at hdvd
    by_cases hji : j = i
    · subst hji; exact hdvd.1
    · by_cases hji2 : j = i + 2
      · subst hji2; exact hdvd.2
      · have hge : i + 6 ≤ j := by omega
        exact ih hrec j hge hjj (by omega)
  | case3 i hle =>
    intro _ j hij hjj _
    exfalso
    have : i * i ≤ j * j := Nat.mul_le_mul hij hij
    omega

/-- Soundness of `isPrime`: a `true` answer really is a prime. -/
theorem isPrime_prime {n : Nat} (h : isPrime n = true) : Nat.Prime n := by
  unfold isPrime at h
  split_ifs at h with h1 h2 h3
  · have hlow : 2 ≤ n := by omega
    interval_cases n
    · exact Nat.prime_two
    · exact Nat.prime_three
  · simp only [Bool.or_eq_true, decide_eq_true_eq, not_or] at h3
    by_contra hnp
    have hn1 : n ≠ 1 := by omega
    have hfp : (n.minFac).Prime := Nat.minFac_prime hn1
    have hfd : n.minFac ∣ n := Nat.minFac_dvd n
    have hfac : n.minFac ^ 2 ≤ n := Nat.minFac_sq_le_self (by omega) hnp
    set f := n.minFac with hf
    have hf2 : 2 ≤ f := hfp.two_le
    have hfne2 : f ≠ 2 := by
      intro h2f
      rw [h2f] at hfd
      omega
    have hfne3 : f ≠ 3 := by
      intro h3f
      rw [h3f] at hfd
      omega
    have hfo2 : f % 2 ≠ 0 := by
      intro hmod
      have h2f : (2 : Nat) ∣ f := by omega
      rcases (hfp.eq_one_or_self_of_dvd 2 h2f) with h | h
      · omega
      · omega
    have hfo3 : f % 3 ≠ 0 := by
      intro hmod
      have h3f : (3 : Nat) ∣ f := by omega
      rcases (hfp.eq_one_or_self_of_dvd 3 h3f) with h | h
      · omega
      · omega
    have hf5 : 5 ≤ f := by omega
    have hsq : f * f ≤ n := by
      rw [pow_two] at hfac
      exact hfac
    have hres : (f - 5) % 6 = 0 ∨ (f - 5) % 6 = 2 := by omega
    have hndvd := trialLoop_sound n 5 h f hf5 hsq hres
    obtain ⟨t, ht⟩ := hfd
    exact hndvd (by rw [ht]; exact Nat.mul_mod_right f t)

/-- Correctness of the square-and-multiply loop relative to `Nat.pow`
(the source returns the accumulator un-reduced when the exponent is 0). -/
theorem modPowLoop_spec (m : Nat) (hm : 0 < m) :
    ∀ (e b r : Nat), r < m →
      modPowLoop b e m r = if e = 0 then r else r * b ^ e % m := by
  have juggle : ∀ x y k : Nat, x * (y % m) ^ k % m = x * y ^ k % m := by
    intro x y k
    conv_lhs => rw [Nat.mul_mod, ← Nat.pow_mod, ← Nat.mul_mod]
  have juggle2 : ∀ x z : Nat, x % m * z % m = x * z % m := by
    intro x z
    conv_lhs => rw [Nat.mul_mod, Nat.mod_mod_of_dvd x (dvd_refl m)]
    rw [← Nat.mul_mod]
  intro e
  induction e using Nat.strong_induction_on with
  | _ e ih =>
    intro b r hr
    rw [modPowLoop]
    by_cases he : e = 0
    · rw [if_pos he, if_pos he]
    · rw [if_neg he, if_neg he]
      have hehalf : e / 2 < e := Nat.div_lt_self (by omega) (by norm_num)
      by_cases hpar : e % 2 = 1
      · rw [if_pos hpar]
        rw [ih (e / 2) hehalf (b * b % m) (r * b % m) (Nat.mod_lt _ hm)]
        by_cases he2 : e / 2 = 0
        · rw [if_pos he2]
          have he1 : e = 1 := by omega
          rw [he1, pow_one]
        · rw [if_neg he2]
          rw [juggle (r * b % m) (b * b) (e / 2), juggle2 (r * b) ((b * b) ^ (e / 2))]
          have hb : b * b = b ^ 2 := (pow_two b).symm
          rw [hb, ← pow_mul, mul_assoc, ← pow_succ']
          have hexp : 2 * (e / 2) + 1 = e := by omega
          rw [hexp]
      · rw [if_neg hpar]
        rw [ih (e / 2) hehalf (b * b % m) r hr]
        have he2 : ¬e / 2 = 0 := by omega
        rw [if_neg he2]
        rw [juggle r (b * b) (e / 2)]
        have hb : b * b = b ^ 2 := (pow_two b).symm
        rw [hb, ← pow_mul]
        have hexp : 2 * (e / 2) = e := by omega
        rw [hexp]

/-- `modPow` computes `base ^ exp % m` for every modulus `m > 1`. -/
theorem modPow_spec (base exp m : Nat) (hm : 1 < m) : modPow base exp m = base ^ exp % m := by
  unfold modPow
  rw [modPowLoop_spec m (by omega) exp (base % m) 1 (by omega)]
  by_cases he : exp = 0
  · rw [if_pos he, he, pow_zero, Nat.mod_eq_of_lt hm]
  · rw [if_neg he, one_mul, ← Nat.pow_mod]

/-- Loop invariant of the extended Euclidean algorithm: the Bézout coefficient
tracks the remainder modulo `m`. -/
theorem egcdLoop_invariant (a m : Int) :
    ∀ (r old_r : Nat) (old_s s : Int),
      Int.ModEq m (old_s * a) (old_r : Int) → Int.ModEq m (s * a) (r : Int) →
      Int.ModEq m ((egcdLoop old_r r old_s s).2 * a) ((egcdLoop old_r r old_s s).1 : Int) := by
  intro r
  induction r using Nat.strong_induction_on with
  | _ r ih =>
    intro old_r old_s s h1 h2
    by_cases hr : r = 0
    · subst hr
      rw [egcdLoop, if_pos rfl]
      exact h1
    · rw [egcdLoop, if_neg hr]
      have hrpos : 0 < r := Nat.pos_of_ne_zero hr
      have hdec : old_r - old_r / r * r < r := by
        have hdm := Nat.div_add_mod old_r r
        have hml := Nat.mod_lt old_r hrpos
        have hmc : old_r / r * r = r * (old_r / r) := Nat.mul_comm _ _
        omega
      have hcast : ((old_r - old_r / r * r : Nat) : Int)
          = (old_r : Int) - ((old_r / r : Nat) : Int) * (r : Int) := by
        have hle : old_r / r * r ≤ old_r := Nat.div_mul_le_self old_r r
        push_cast [hle]
        ring
      refine ih _ hdec r s _ h2 ?_
      have h3 := h1.sub (h2.mul_left ((old_r / r : Nat) : Int))
      have h4 : old_s * a - ((old_r / r : Nat) : Int) * (s * a)
          = (old_s - ((old_r / r : Nat) : Int) * s) * a := by ring
      rw [h4] at h3
      rw [hcast]
      exact h3

/-- Success of `modInverse` yields a modular inverse: `a * d ≡ 1 (mod m)`. -/
theorem modInverse_spec (a m : Nat) (hm : 0 < m) (d : Nat)
    (h : modInverse a m = .ok d) : ((a : Int) * d) % (m : Int) = 1 % (m : Int) := by
  unfold modInverse at h
  by_cases hg : (egcdLoop a m 1 0).1 ≠ 1
  · rw [if_pos hg] at h
    exact absurd h (by simp)
  · rw [if_neg hg] at h
    push_neg at hg
    injection h with hd
    have hmz : (0 : Int) < (m : Int) := by exact_mod_cast hm
    have hinv := egcdLoop_invariant a m m a 1 0
      (by simp [Int.ModEq]) (by simp [Int.ModEq, Int.emod_self])
    rw [hg] at hinv
    set w := (egcdLoop a m 1 0).2 with hw
    have hjs : jsMod w m = w % (m : Int) := jsMod_eq_emod w m hmz
    have hdint : (d : Int) = w % (m : Int) := by
      rw [← hd, hjs]
      exact Int.toNat_of_nonneg (Int.emod_nonneg w (by omega))
    calc ((a : Int) * d) % (m : Int)
        = ((a : Int) * (w % m)) % m := by rw [hdint]
      _ = ((a : Int) % m * (w % m % m)) % m := by rw [Int.mul_emod]
      _ = ((a : Int) % m * (w % m)) % m := by rw [Int.emod_emod_of_dvd _ dvd_rfl]
      _ = ((a : Int) * w) % m := by rw [← Int.mul_emod]
      _ = (w * a) % m := by rw [mul_comm]
      _ = 1 % m := hinv

/-- Fermat's little theorem in the form the RSA round trip needs, valid also
for multiples of `p`: `a ^ (k(p-1) + 1) ≡ a (mod p)`. -/
theorem fermat_aux {p : Nat} (hp : p.Prime) (a k : Nat) :
    Nat.ModEq p (a ^ (k * (p - 1) + 1)) a := by
  by_cases hdvd : p ∣ a
  · have h1 : p ∣ a ^ (k * (p - 1) + 1) := dvd_pow hdvd (by omega)
    exact (Nat.modEq_zero_iff_dvd.mpr h1).trans (Nat.modEq_zero_iff_dvd.mpr hdvd).symm
  · have hco : Nat.Coprime a p := (hp.coprime_iff_not_dvd.mpr hdvd).symm
    have h2 : Nat.ModEq p (a ^ (p - 1)) 1 := by
      have h3 := Nat.ModEq.pow_totient hco
      rwa [Nat.totient_prime hp] at h3
    calc a ^ (k * (p - 1) + 1)
        = (a ^ (p - 1)) ^ k * a := by rw [pow_add, pow_one, ← pow_mul, mul_comm (p - 1) k]
      _ ≡ 1 ^ k * a [MOD p] := Nat.ModEq.mul_right a (h2.pow k)
      _ = a := by rw [one_pow, one_mul]

/-- Core RSA correctness: with distinct primes and `e·d ≡ 1 (mod φ)`,
encrypt-then-decrypt restores every message `m < p·q`. -/
theorem rsa_roundtrip_core {p q e d m : Nat} (hp : p.Prime) (hq : q.Prime) (hpq : p ≠ q)
    (hed : (e * d) % ((p - 1) * (q - 1)) = 1) (hm : m < p * q) :
    (m ^ e % (p * q)) ^ d % (p * q) = m := by
  have h1 : (m ^ e % (p * q)) ^ d % (p * q) = m ^ (e * d) % (p * q) := by
    conv_lhs => rw [← Nat.pow_mod]
    rw [← pow_mul]
  have hdm := Nat.div_add_mod (e * d) ((p - 1) * (q - 1))
  set t := e * d / ((p - 1) * (q - 1)) with ht
  have hexp : e * d = (p - 1) * (q - 1) * t + 1 := by omega
  have hmp : Nat.ModEq p (m ^ (e * d)) m := by
    have he2 : e * d = (q - 1) * t * (p - 1) + 1 := by rw [hexp]; ring
    rw [he2]
    exact fermat_aux hp m ((q - 1) * t)
  have hmq : Nat.ModEq q (m ^ (e * d)) m := by
    have he2 : e * d = (p - 1) * t * (q - 1) + 1 := by rw [hexp]; ring
    rw [he2]
    exact fermat_aux hq m ((p - 1) * t)
  have hco : Nat.Coprime p q := (Nat.coprime_primes hp hq).mpr hpq
  have hmn := (Nat.modEq_and_modEq_iff_modEq_mul hco).mp ⟨hmp, hmq⟩
  rw [h1, hmn, Nat.mod_eq_of_lt hm]

/-- Unpacking a successful `generateRSAKeys` run. -/
theorem generateRSAKeys_ok {p q e : Nat} {k : RSAKeys}
    (h : generateRSAKeys p q e = .ok k) :
    isPrime p = true ∧ isPrime q = true ∧ p ≠ q ∧ 2 ≤ e ∧ e < (p - 1) * (q - 1)
    ∧ modInverse e ((p - 1) * (q - 1)) = .ok k.d
    ∧ k.p = p ∧ k.q = q ∧ k.n = p * q ∧ k.phi = (p - 1) * (q - 1) ∧ k.e = e := by
  simp only [generateRSAKeys] at h
  split_ifs at h with h1 h2 h3 h4 h5
  cases hmi : modInverse e ((p - 1) * (q - 1)) with
  | error err =>
    rw [hmi] at h
    exact absurd h (by simp)
  | ok d =>
    rw [hmi] at h
    injection h with hk
    subst hk
    simp only [Bool.not_eq_false] at h1 h2
    push_neg at h4
    refine ⟨h1, h2, h3, by omega, by omega, ?_, rfl, rfl, rfl, rfl, rfl⟩
    rfl

/-- C2: for every key set produced by `generateRSAKeys` and every in-range
message, decrypt ∘ encrypt is the identity; and the worked example
`p = 61, q = 53, e = 17` gives `n = 3233`, `d = 2753`, encrypts `65` to `2790`
and decrypts `2790` back to `65`. -/
theorem claim_C2 :
    (∀ (p q e : Nat) (k : RSAKeys) (m c : Nat),
      generateRSAKeys p q e = .ok k → m < k.n →
      rsaEncrypt m k.e k.n = .ok c → rsaDecrypt c k.d k.n = m)
    ∧ generateRSAKeys 61 53 17 = .ok ⟨61, 53, 3233, 3120, 17, 2753⟩
    ∧ rsaEncrypt 65 17 3233 = .ok 2790
    ∧ rsaDecrypt 2790 2753 3233 = 65 := by
  refine ⟨?_, ?_, ?_, ?_⟩
  · intro p q e k m c hk hm hc
    obtain ⟨hp, hq, hpq, he2, helt, hmi, hkp, hkq, hkn, hkphi, hke⟩ := generateRSAKeys_ok hk
    have hpp := isPrime_prime hp
    have hqp := isPrime_prime hq
    have hp2 := hpp.two_le
    have hq2 := hqp.two_le
    have hphi1 : 1 < (p - 1) * (q - 1) := by
      rcases (by omega : 3 ≤ p ∨ 3 ≤ q) with h3 | h3
      · calc 1 < 2 * 1 := by norm_num
          _ ≤ (p - 1) * (q - 1) := Nat.mul_le_mul (by omega) (by omega)
      · calc 1 < 1 * 2 := by norm_num
          _ ≤ (p - 1) * (q - 1) := Nat.mul_le_mul (by omega) (by omega)
    have hn1 : 1 < p * q := by
      calc 1 < 2 * 2 := by norm_num
        _ ≤ p * q := Nat.mul_le_mul hp2 hq2
    have hed : (e * k.d) % ((p - 1) * (q - 1)) = 1 := by
      have hint := modInverse_spec e ((p - 1) * (q - 1)) (by omega) k.d hmi
      have h2 : (((e * k.d) % ((p - 1) * (q - 1)) : Nat) : Int)
          = ((1 % ((p - 1) * (q - 1)) : Nat) : Int) := by
        push_cast
        exact hint
      have h3 : (e * k.d) % ((p - 1) * (q - 1)) = 1 % ((p - 1) * (q - 1)) := by
        exact_mod_cast h2
      rwa [Nat.mod_eq_of_lt hphi1] at h3
    unfold rsaEncrypt at hc
    rw [hkn] at hm
    rw [if_neg (by rw [hkn]; omega)] at hc
    injection hc with hc
    unfold rsaDecrypt
    rw [← hc, hke, hkn]
    rw [modPow_spec _ _ _ hn1, modPow_spec _ _ _ hn1]
    exact rsa_roundtrip_core hpp hqp hpq hed hm
  · simp [generateRSAKeys, isPrime, trialLoop, modInverse, egcdLoop, gcdJS, jsMod_eq_emod]
  · simp [rsaEncrypt, modPow, modPowLoop]
  · simp [rsaDecrypt, modPow, modPowLoop]

/-- Witness for C2 applying the round-trip law at the worked example. -/
theorem claim_C2_witness :
    rsaDecrypt 2790 2753 3233 = 65 :=
  claim_C2.1 61 53 17 ⟨61, 53, 3233, 3120, 17, 2753⟩ 65 2790
    claim_C2.2.1 (by norm_num) claim_C2.2.2.1

end CryptoVisualizer
